import Mathlib

/-!
Shallow embedding of the gateway core of this repository: the health-check
state machine (src/healthChecker.js), the load balancer (src/loadBalancer.js),
the TTL cache (src/cache.js) and the sliding-window rate limiter (§4.4 of the
design document; its source file is referenced by src/index.js but is not part
of the sources at hand).  JavaScript objects and Map values are embedded as
association lists looked up by first match, timestamps as natural numbers, and
service / path / key strings as lists of characters.
-/

/-- Identifier strings (endpoints, route paths, cache keys) as char lists. -/
abbrev Name := List Char

/-- First-match lookup in an association list, embedding `obj[k]` / `map.get(k)`. -/
def mapFind {α β : Type} [DecidableEq α] (k : α) : List (α × β) → Option β
  | [] => none
  | p :: t => if p.1 = k then some p.2 else mapFind k t

/-- Overwriting insertion, embedding `obj[k] = v` / `map.set(k, v)`. -/
def mapInsert {α β : Type} [DecidableEq α] (k : α) (v : β) : List (α × β) → List (α × β)
  | [] => [(k, v)]
  | p :: t => if p.1 = k then (k, v) :: t else p :: mapInsert k v t

/-- Key removal, embedding `map.delete(k)`. -/
def mapErase {α β : Type} [DecidableEq α] (k : α) (l : List (α × β)) : List (α × β) :=
  l.filter (fun p => decide (p.1 ≠ k))

theorem mapFind_insert_self {α β : Type} [DecidableEq α] (k : α) (v : β) (l : List (α × β)) :
    mapFind k (mapInsert k v l) = some v := by
  induction l with
  | nil => simp [mapFind, mapInsert]
  | cons p t ih =>
    by_cases h : p.1 = k
    · simp [mapFind, mapInsert, h]
    · simp [mapFind, mapInsert, h, ih]

theorem mapFind_insert_ne {α β : Type} [DecidableEq α] (k k' : α) (v : β) (l : List (α × β))
    (h : k' ≠ k) : mapFind k' (mapInsert k v l) = mapFind k' l := by
  induction l with
  | nil =>
    simp only [mapInsert, mapFind]
    rw [if_neg (Ne.symm h)]
  | cons p t ih =>
    by_cases hp : p.1 = k
    · have hpk : ¬(p.1 = k') := by
        rw [hp]
        exact Ne.symm h
      simp only [mapInsert, if_pos hp, mapFind]
      rw [if_neg (Ne.symm h), if_neg hpk]
    · simp only [mapInsert, if_neg hp, mapFind]
      by_cases hp' : p.1 = k'
      · rw [if_pos hp', if_pos hp']
      · rw [if_neg hp', if_neg hp', ih]

theorem mapFind_filter {α β : Type} [DecidableEq α] (f : α → Bool) (k : α)
    (l : List (α × β)) :
    mapFind k (l.filter (fun p => f p.1)) = if f k then mapFind k l else none := by
  induction l with
  | nil => simp [mapFind]
  | cons p t ih =>
    by_cases hp : p.1 = k
    · subst hp
      by_cases hf : f p.1
      · simp [mapFind, hf, List.filter]
      · simp [mapFind, hf, List.filter, ih]
    · by_cases hf : f p.1
      · simp [mapFind, hf, hp, List.filter, ih]
      · simp [mapFind, hf, hp, List.filter, ih]

theorem mapFind_mem {α β : Type} [DecidableEq α] {k : α} {v : β} {l : List (α × β)}
    (h : mapFind k l = some v) : (k, v) ∈ l := by
  induction l with
  | nil => simp [mapFind] at h
  | cons p t ih =>
    by_cases hp : p.1 = k
    · simp [mapFind, hp] at h
      have hpv : p = (k, v) := by
        cases p
        simp_all
      rw [hpv]
      exact List.mem_cons_self _ _
    · simp [mapFind, hp] at h
      exact List.mem_cons_of_mem _ (ih h)

/-- Per-endpoint health record of healthChecker.js: `{healthy, lastChecked,
consecutiveFailures, lastFailureTime}`. -/
structure HealthRecord where
  healthy : Bool
  lastChecked : Option Nat
  consecutiveFailures : Nat
  lastFailureTime : Option Nat
deriving DecidableEq

/-- The record healthChecker.js creates for a service it has not seen yet. -/
def freshRecord : HealthRecord :=
  { healthy := true, lastChecked := none, consecutiveFailures := 0, lastFailureTime := none }

/-- The `serviceHealth` object of healthChecker.js. -/
abbrev HealthMap := List (Name × HealthRecord)

/-- Embedding of `updateServiceHealth(service, isHealthy)`: creates a fresh record
if none exists, always stamps `lastChecked`, on success resets the failure counter
only when the record was unhealthy, on failure increments the counter, stamps
`lastFailureTime`, and clears `healthy` once the counter reaches 3. -/
def updateServiceHealth (now : Nat) (service : Name) (isHealthy : Bool)
    (st : HealthMap) : HealthMap :=
  let h0 := (mapFind service st).getD freshRecord
  let h1 := { h0 with lastChecked := some now }
  let h2 :=
    if isHealthy then
      if h1.healthy = false then
        { h1 with healthy := true, consecutiveFailures := 0 }
      else h1
    else
      let hf := { h1 with consecutiveFailures := h1.consecutiveFailures + 1,
                          lastFailureTime := some now }
      if 3 ≤ hf.consecutiveFailures then { hf with healthy := false } else hf
  mapInsert service h2 st

/-- Embedding of `getHealthyServices(path, allServices)`: keeps a service only when
a record exists and its `healthy` flag is set (`health && health.healthy`). -/
def getHealthyServices (st : HealthMap) (allServices : List Name) : List Name :=
  allServices.filter (fun s =>
    match mapFind s st with
    | some h => h.healthy
    | none => false)

/-- Embedding of `setServiceHealth(service, healthy)`: creates a fresh record if
needed, then overwrites only the `healthy` flag and `lastChecked`. -/
def setServiceHealth (now : Nat) (service : Name) (healthy : Bool)
    (st : HealthMap) : HealthMap :=
  let h0 := (mapFind service st).getD freshRecord
  mapInsert service { h0 with healthy := healthy, lastChecked := some now } st

/-- Embedding of the initialization loop of `initHealthChecker(routes)`: every
service of every route gets a fresh record marked healthy. -/
def initHealthChecker (routes : List (Name × List Name)) (st : HealthMap) : HealthMap :=
  routes.foldl (fun acc r => r.2.foldl (fun a s => mapInsert s freshRecord a) acc) st

/-- A sequence of check results applied to one service, as the probe loop does. -/
def runChecks (now : Nat) (service : Name) (results : List Bool) (st : HealthMap) :
    HealthMap :=
  results.foldl (fun s r => updateServiceHealth now service r s) st

/-- Whether a list of check results contains three consecutive failures. -/
def threeConsecFails : List Bool → Bool
  | false :: false :: false :: _ => true
  | _ :: t => threeConsecFails t
  | [] => false

def svcA : Name := ['A']
def svcB : Name := ['B']
def svcC : Name := ['C']
def pathUsers : Name := ['/', 'u', 's', 'e', 'r', 's']

/-- Claim C1: the repository marks an endpoint unhealthy on the check sequence
fail, success, fail, success, fail — the counter reaches 3 although the endpoint
never saw three consecutive failures, because a success while still healthy does
not reset the counter.  This evaluates the code at the failing input. -/
theorem unhealthy_without_three_consecutive_failures :
    ((mapFind svcA (runChecks 0 svcA [false, true, false, true, false] [])).map
        (fun h => h.healthy) = some false) ∧
      threeConsecFails [false, true, false, true, false] = false := by
  decide

/-- Claim C2: after two failures (endpoint still healthy, counter at 2) a
successful check leaves `consecutiveFailures` at 2 instead of resetting it to 0,
because the reset branch runs only when the record was unhealthy.  This evaluates
the code at the failing input. -/
theorem success_does_not_reset_counter_while_healthy :
    ((mapFind svcA (updateServiceHealth 1 svcA true (runChecks 0 svcA [false, false] []))).map
        (fun h => h.consecutiveFailures) = some 2) ∧
      ((mapFind svcA (runChecks 0 svcA [false, false] [])).map
        (fun h => h.healthy) = some true) := by
  decide

/-- Claim C10: the manual override rewrites only the `healthy` flag and
`lastChecked`, leaving `consecutiveFailures` and `lastFailureTime` untouched; as a
consequence, an endpoint forced healthy while its counter is already at least 3
goes unhealthy again on a single subsequent failed check. -/
theorem manual_override_frame_and_single_failure_relapse (now now2 : Nat) (e : Name)
    (b : Bool) (st : HealthMap) (r : HealthRecord) (hr : mapFind e st = some r) :
    mapFind e (setServiceHealth now e b st) =
      some { r with healthy := b, lastChecked := some now } ∧
    (3 ≤ r.consecutiveFailures →
      (mapFind e (updateServiceHealth now2 e false (setServiceHealth now e true st))).map
        (fun h => h.healthy) = some false) := by
  constructor
  · simp [setServiceHealth, hr, mapFind_insert_self]
  · intro h3
    simp only [updateServiceHealth, setServiceHealth, hr, Option.getD_some,
      mapFind_insert_self]
    have hle : 3 ≤ r.consecutiveFailures + 1 := Nat.le_succ_of_le h3
    simp [hle]

/-- Witness for C10 at a concrete record with counter 5. -/
theorem manual_override_frame_and_single_failure_relapse_check :
    mapFind svcA (setServiceHealth 7 svcA true
        [(svcA, { healthy := false, lastChecked := some 2, consecutiveFailures := 5,
                  lastFailureTime := some 2 })]) =
      some { healthy := true, lastChecked := some 7, consecutiveFailures := 5,
             lastFailureTime := some 2 } ∧
    (3 ≤ 5 →
      (mapFind svcA (updateServiceHealth 8 svcA false (setServiceHealth 7 svcA true
          [(svcA, { healthy := false, lastChecked := some 2, consecutiveFailures := 5,
                    lastFailureTime := some 2 })]))).map
        (fun h => h.healthy) = some false) :=
  manual_override_frame_and_single_failure_relapse 7 8 svcA true
    [(svcA, { healthy := false, lastChecked := some 2, consecutiveFailures := 5,
              lastFailureTime := some 2 })]
    { healthy := false, lastChecked := some 2, consecutiveFailures := 5,
      lastFailureTime := some 2 } (by decide)

theorem initHealth_foldl_find (e : Name) (l : List Name) (st : HealthMap) :
    mapFind e (l.foldl (fun a s => mapInsert s freshRecord a) st) =
      if e ∈ l then some freshRecord else mapFind e st := by
  induction l generalizing st with
  | nil => simp
  | cons s t ih =>
    simp only [List.foldl_cons]
    rw [ih]
    by_cases ht : e ∈ t
    · simp [ht]
    · by_cases hs : e = s
      · subst hs
        simp [ht, mapFind_insert_self]
      · simp [ht, hs, mapFind_insert_ne s e freshRecord st hs]

theorem initHealthChecker_cons (r : Name × List Name) (rs : List (Name × List Name))
    (st : HealthMap) :
    initHealthChecker (r :: rs) st =
      initHealthChecker rs (r.2.foldl (fun a s => mapInsert s freshRecord a) st) := rfl

theorem initHealthChecker_untouched (routes : List (Name × List Name)) (st : HealthMap)
    (e : Name) (h : ∀ p ∈ routes, e ∉ p.2) :
    mapFind e (initHealthChecker routes st) = mapFind e st := by
  induction routes generalizing st with
  | nil => rfl
  | cons r rs ih =>
    rw [initHealthChecker_cons, ih _ (fun p hp => h p (List.mem_cons_of_mem _ hp)),
      initHealth_foldl_find, if_neg (h r (List.mem_cons_self _ _))]

theorem initHealthChecker_mem (routes : List (Name × List Name)) (st : HealthMap)
    (e : Name) (hp : ∃ p ∈ routes, e ∈ p.2) :
    mapFind e (initHealthChecker routes st) = some freshRecord := by
  induction routes generalizing st with
  | nil => simp at hp
  | cons r rs ih =>
    by_cases hrs : ∃ p ∈ rs, e ∈ p.2
    · exact ih _ hrs
    · push_neg at hrs
      have her : e ∈ r.2 := by
        rcases hp with ⟨p, hpm, hep⟩
        rcases List.mem_cons.mp hpm with h | h
        · exact h ▸ hep
        · exact absurd hep (hrs p h)
      rw [initHealthChecker_cons, initHealthChecker_untouched rs _ e hrs,
        initHealth_foldl_find, if_pos her]

/-- Claim C6 counterexample: with no health record at all for endpoint A,
`getHealthyServices` excludes A instead of including it — there is no optimistic
default inside the filter. -/
theorem unknown_endpoint_excluded_from_healthy :
    ¬ (svcA ∈ getHealthyServices ([] : HealthMap) [svcA]) := by
  decide

/-- Claim C6 amended: an endpoint with no health record is excluded by
`getHealthyServices` (unknown is treated as unhealthy by the filter); the
optimistic treatment happens instead at initialization — `initHealthChecker`
gives every endpoint of every route a record marked healthy before any probe has
run, so a route-configured endpoint is included before its first check. -/
theorem healthy_filter_excludes_unknown_but_init_includes (st : HealthMap) (e : Name)
    (services : List Name) (routes : List (Name × List Name)) (p : Name × List Name)
    (he : mapFind e st = none) (hp : p ∈ routes) (hep : e ∈ p.2) (hes : e ∈ services) :
    e ∉ getHealthyServices st services ∧
      e ∈ getHealthyServices (initHealthChecker routes st) services := by
  constructor
  · intro hmem
    have := (List.mem_filter.mp hmem).2
    rw [he] at this
    simp at this
  · refine List.mem_filter.mpr ⟨hes, ?_⟩
    rw [initHealthChecker_mem routes st e ⟨p, hp, hep⟩]
    rfl

/-- Witness for the amended C6 at a concrete one-route configuration. -/
theorem healthy_filter_excludes_unknown_but_init_includes_check :
    svcA ∉ getHealthyServices ([] : HealthMap) [svcA] ∧
      svcA ∈ getHealthyServices
        (initHealthChecker [(pathUsers, [svcA, svcB])] ([] : HealthMap)) [svcA] :=
  healthy_filter_excludes_unknown_but_init_includes [] svcA [svcA]
    [(pathUsers, [svcA, svcB])] (pathUsers, [svcA, svcB]) (by decide)
    (by decide) (by decide) (by decide)

/-- The `counters` object of loadBalancer.js: per-path round-robin counter. -/
abbrev CounterMap := List (Name × Nat)

/-- Embedding of `getNextTargetRoundRobin(path, services)`: a missing counter
counts as 0, the target is `services[counter % services.length]`, and the counter
is incremented unconditionally. -/
def getNextTargetRoundRobin (path : Name) (services : List Name) (st : CounterMap) :
    Option Name × CounterMap :=
  let c := (mapFind path st).getD 0
  (services.get? (c % services.length), mapInsert path (c + 1) st)

/-- A run of consecutive round-robin selections against a stable service list. -/
def rrRun (path : Name) (services : List Name) : Nat → CounterMap →
    List (Option Name) × CounterMap
  | 0, st => ([], st)
  | n + 1, st =>
    let s := getNextTargetRoundRobin path services st
    let rest := rrRun path services n s.2
    (s.1 :: rest.1, rest.2)

theorem range_map_get (l : List Name) :
    (List.range l.length).map (fun k => l.get? k) = l.map some := by
  induction l with
  | nil => rfl
  | cons a t ih =>
    rw [List.length_cons, List.range_succ_eq_map, List.map_cons, List.map_map]
    have hcomp : ((fun k => (a :: t).get? k) ∘ Nat.succ) = (fun k => t.get? k) :=
      funext (fun k => rfl)
    rw [hcomp, ih, List.map_cons]
    rfl

theorem rrRun_spec (path : Name) (services : List Name) :
    ∀ (n : Nat) (st : CounterMap) (c : Nat), (mapFind path st).getD 0 = c →
    (rrRun path services n st).1 =
      (List.range n).map (fun k => services.get? ((c + k) % services.length)) ∧
    mapFind path (rrRun path services n st).2 =
      if n = 0 then mapFind path st else some (c + n) := by
  intro n
  induction n with
  | zero => intro st c hc; simp [rrRun]
  | succ n ih =>
    intro st c hc
    have hstep : mapFind path (getNextTargetRoundRobin path services st).2 = some (c + 1) :=
      by simp [getNextTargetRoundRobin, hc, mapFind_insert_self]
    have hrest := ih (getNextTargetRoundRobin path services st).2 (c + 1) (by rw [hstep]; rfl)
    constructor
    · show (getNextTargetRoundRobin path services st).1 ::
        (rrRun path services n (getNextTargetRoundRobin path services st).2).1 = _
      rw [hrest.1, List.range_succ_eq_map, List.map_cons, List.map_map]
      congr 1
      · simp [getNextTargetRoundRobin, hc]
      · apply List.map_congr_left
        intro k _
        show services.get? ((c + 1 + k) % services.length) =
          services.get? ((c + (k + 1)) % services.length)
        have hadd : c + 1 + k = c + (k + 1) := by omega
        rw [hadd]
    · show mapFind path (rrRun path services n (getNextTargetRoundRobin path services st).2).2 = _
      rw [hrest.2]
      cases n with
      | zero => simpa using hstep
      | succ m =>
        have : c + 1 + (m + 1) = c + (m + 1 + 1) := by omega
        simp [this]

/-- Claim C3: with a fresh per-path counter (absent or 0) and a stable non-empty
service list of length N, N consecutive round-robin selections return the services
in list order, each exactly once (selection k is `services[k mod N]`), the counter
ends at N, and every single selection increments the counter by exactly 1 whatever
the outcome. -/
theorem round_robin_cycles_all_endpoints (path : Name) (services : List Name)
    (st st2 : CounterMap) (h0 : mapFind path st = none ∨ mapFind path st = some 0)
    (hne : services ≠ []) :
    (rrRun path services services.length st).1 = services.map some ∧
    mapFind path (rrRun path services services.length st).2 = some services.length ∧
    mapFind path (getNextTargetRoundRobin path services st2).2 =
      some ((mapFind path st2).getD 0 + 1) := by
  have hc : (mapFind path st).getD 0 = 0 := by
    rcases h0 with h | h <;> rw [h] <;> rfl
  have h := rrRun_spec path services services.length st 0 hc
  refine ⟨?_, ?_, ?_⟩
  · rw [h.1]
    have : (List.range services.length).map
        (fun k => services.get? ((0 + k) % services.length)) =
        (List.range services.length).map (fun k => services.get? k) := by
      apply List.map_congr_left
      intro k hk
      rw [Nat.zero_add, Nat.mod_eq_of_lt (List.mem_range.mp hk)]
    rw [this, range_map_get]
  · rw [h.2, if_neg (by simpa using List.length_pos.mpr hne |>.ne'), Nat.zero_add]
  · simp [getNextTargetRoundRobin, mapFind_insert_self]

/-- Witness for C3: two services, fresh counter, and a second state whose counter
is 7 for the increment conjunct. -/
theorem round_robin_cycles_all_endpoints_check :
    (mapFind pathUsers ([] : CounterMap) = none ∨
        mapFind pathUsers ([] : CounterMap) = some 0) ∧
      ([svcA, svcB] : List Name) ≠ [] ∧
      ((rrRun pathUsers [svcA, svcB] (List.length [svcA, svcB]) []).1 =
          ([svcA, svcB] : List Name).map some ∧
        mapFind pathUsers (rrRun pathUsers [svcA, svcB] (List.length [svcA, svcB]) []).2 =
          some (List.length [svcA, svcB]) ∧
        mapFind pathUsers
            (getNextTargetRoundRobin pathUsers [svcA, svcB] [(pathUsers, 7)]).2 =
          some ((mapFind pathUsers [(pathUsers, 7)]).getD 0 + 1)) :=
  ⟨Or.inl (by decide), by decide,
    round_robin_cycles_all_endpoints pathUsers [svcA, svcB] [] [(pathUsers, 7)]
      (Or.inl (by decide)) (by decide)⟩

/-- Per-route connection counters of loadBalancer.js (`activeConnections[path]`). -/
abbrev ConnMap := List (Name × Int)

/-- The whole `activeConnections` object. -/
abbrev LBState := List (Name × ConnMap)

/-- Minimum of a list of integers, `Math.min(...values)`; none on the empty list
(where the source yields Infinity and no counter can equal it). -/
def intMin : List Int → Option Int
  | [] => none
  | x :: xs =>
    match intMin xs with
    | none => some x
    | some m => some (min x m)

theorem intMin_eq_none {l : List Int} (h : intMin l = none) : l = [] := by
  cases l with
  | nil => rfl
  | cons x xs =>
    simp only [intMin] at h
    cases hx : intMin xs with
    | none =>
      rw [hx] at h
      simp at h
    | some m =>
      rw [hx] at h
      simp at h

theorem intMin_mem : ∀ {l : List Int} {m : Int}, intMin l = some m → m ∈ l := by
  intro l
  induction l with
  | nil => intro m h; simp [intMin] at h
  | cons x xs ih =>
    intro m h
    simp only [intMin] at h
    cases hx : intMin xs with
    | none =>
      rw [hx] at h
      simp at h
      simp [h]
    | some m' =>
      rw [hx] at h
      simp at h
      rcases le_total x m' with hle | hle
      · rw [min_eq_left hle] at h
        simp [h]
      · rw [min_eq_right hle] at h
        exact List.mem_cons_of_mem _ (h ▸ ih hx)

theorem intMin_le : ∀ {l : List Int} {m : Int}, intMin l = some m → ∀ x ∈ l, m ≤ x := by
  intro l
  induction l with
  | nil => intro m _ x hx; simp at hx
  | cons y ys ih =>
    intro m h x hx
    simp only [intMin] at h
    cases hy : intMin ys with
    | none =>
      rw [hy] at h
      simp at h
      rw [intMin_eq_none hy] at hx
      simp at hx
      omega
    | some m' =>
      rw [hy] at h
      simp at h
      rcases List.mem_cons.mp hx with hxy | hxy
      · subst hxy
        omega
      · have := ih hy x hxy
        omega

/-- Candidate list of `getNextTargetLeastConnections`: services whose counter
equals the minimum over ALL counters tracked for the route. -/
def lcCandidates (services : List Name) (m : ConnMap) : List Name :=
  match intMin (m.map (fun q => q.2)) with
  | none => []
  | some mn => services.filter (fun s => decide (mapFind s m = some mn))

/-- Embedding of `getNextTargetLeastConnections(path, services)`: on a missing map
every passed service is registered at 0; `rand` stands for the random draw and
indexes the candidate list (an out-of-range index on an empty candidate list gives
the source's `undefined`, i.e. none). -/
def getNextTargetLeastConnections (path : Name) (services : List Name) (rand : Nat)
    (st : LBState) : Option Name × LBState :=
  match mapFind path st with
  | none =>
    let m := services.map (fun s => (s, (0 : Int)))
    let cands := lcCandidates services m
    (cands.get? (rand % cands.length), mapInsert path m st)
  | some m =>
    let cands := lcCandidates services m
    (cands.get? (rand % cands.length), st)

/-- Embedding of `incrementConnections(path, target)`. -/
def incrementConnections (path target : Name) (st : LBState) : LBState :=
  let m := (mapFind path st).getD []
  let c := (mapFind target m).getD 0
  mapInsert path (mapInsert target (c + 1) m) st

/-- Embedding of `decrementConnections(path, target)`: only acts when both the
route map and the target counter already exist. -/
def decrementConnections (path target : Name) (st : LBState) : LBState :=
  match mapFind path st with
  | none => st
  | some m =>
    match mapFind target m with
    | none => st
    | some c => mapInsert path (mapInsert target (c - 1) m) st

/-- Claim C5 counterexample: the route map is created for services A, B, C, then A
and B each take a connection and C (now absent from the healthy list) still holds
the route-wide minimum 0; with the non-empty healthy list [A, B] the selection
returns no endpoint at all, because the candidate filter compares against the
minimum over ALL tracked counters, which no passed endpoint attains. -/
theorem least_connections_returns_none_on_stale_minimum :
    ([svcA, svcB] : List Name) ≠ [] ∧
      (getNextTargetLeastConnections pathUsers [svcA, svcB] 0
        (incrementConnections pathUsers svcB
          (incrementConnections pathUsers svcA
            (getNextTargetLeastConnections pathUsers [svcA, svcB, svcC] 0 []).2))).1 =
        none := by
  decide

/-- Claim C5 amended: when some passed endpoint attains the route-wide minimum
counter (in particular whenever the tracked endpoints are exactly the passed
list), least-connections selection returns a passed endpoint whose counter does
not exceed the counter of any passed endpoint, and every passed endpoint sharing
that minimum counter is returned for some value of the random draw; when no
passed endpoint attains the route-wide minimum the selection yields none. -/
theorem least_connections_min_among_tracked (path : Name) (services : List Name)
    (rand : Nat) (st : LBState) (m : ConnMap) (hm : mapFind path st = some m)
    (hatt : ∃ s ∈ services, (mapFind s m).isSome ∧ ∀ q ∈ m, (mapFind s m).getD 0 ≤ q.2) :
    ∃ e, (getNextTargetLeastConnections path services rand st).1 = some e ∧
      e ∈ services ∧
      ∃ ce : Int, mapFind e m = some ce ∧
        (∀ s2 ∈ services, ∀ c2 : Int, mapFind s2 m = some c2 → ce ≤ c2) ∧
        (∀ e2 ∈ services, mapFind e2 m = some ce →
          ∃ r2 : Nat, (getNextTargetLeastConnections path services r2 st).1 = some e2) := by
  obtain ⟨s, hs, hsome, hleD⟩ := hatt
  obtain ⟨c, hc⟩ := Option.isSome_iff_exists.mp hsome
  have hle : ∀ q ∈ m, c ≤ q.2 := by
    intro q hq
    have := hleD q hq
    rw [hc] at this
    simpa using this
  have hcv : c ∈ m.map (fun q => q.2) := List.mem_map.mpr ⟨(s, c), mapFind_mem hc, rfl⟩
  cases hv : intMin (m.map (fun q => q.2)) with
  | none =>
    exfalso
    rw [intMin_eq_none hv] at hcv
    simp at hcv
  | some v =>
    have hvc : v = c := by
      have h1 : v ≤ c := intMin_le hv c hcv
      have h2 : c ≤ v := by
        rcases List.mem_map.mp (intMin_mem hv) with ⟨q, hq, hqv⟩
        rw [← hqv]
        exact hle q hq
      omega
    have hv' : intMin (m.map (fun q => q.2)) = some c := by rw [hv, hvc]
    have hsc : s ∈ lcCandidates services m := by
      simp only [lcCandidates, hv']
      exact List.mem_filter.mpr ⟨hs, by simp [hc]⟩
    have hlen : 0 < (lcCandidates services m).length :=
      List.length_pos.mpr (List.ne_nil_of_mem hsc)
    obtain ⟨e, hget⟩ : ∃ e, (lcCandidates services m).get?
        (rand % (lcCandidates services m).length) = some e := by
      cases hg : (lcCandidates services m).get? (rand % (lcCandidates services m).length) with
      | none =>
        exfalso
        have := List.get?_eq_none.mp hg
        have hlt := Nat.mod_lt rand hlen
        omega
      | some e => exact ⟨e, rfl⟩
    have hemem : e ∈ lcCandidates services m := List.get?_mem hget
    have hefil : e ∈ services ∧ mapFind e m = some c := by
      have h' := hemem
      simp only [lcCandidates, hv'] at h'
      have h2 := List.mem_filter.mp h'
      exact ⟨h2.1, of_decide_eq_true h2.2⟩
    refine ⟨e, ?_, hefil.1, c, hefil.2, ?_, ?_⟩
    · simp only [getNextTargetLeastConnections, hm]
      exact hget
    · intro s2 _ c2 hc2
      exact hle _ (mapFind_mem hc2)
    · intro e2 he2 hce2
      have he2c : e2 ∈ lcCandidates services m := by
        simp only [lcCandidates, hv']
        exact List.mem_filter.mpr ⟨he2, by simp [hce2]⟩
      obtain ⟨n, hn⟩ := List.mem_iff_get?.mp he2c
      have hnlt : n < (lcCandidates services m).length := (List.get?_eq_some.mp hn).1
      refine ⟨n, ?_⟩
      simp only [getNextTargetLeastConnections, hm]
      rw [Nat.mod_eq_of_lt hnlt]
      exact hn

/-- Witness for the amended C5: both passed endpoints tracked at counter 1, no
stale endpoints, random draw 0. -/
theorem least_connections_min_among_tracked_check :
    (mapFind pathUsers ([(pathUsers, [(svcA, (1 : Int)), (svcB, 1)])] : LBState) =
        some [(svcA, 1), (svcB, 1)]) ∧
      (∃ s ∈ ([svcA, svcB] : List Name),
        (mapFind s ([(svcA, (1 : Int)), (svcB, 1)] : ConnMap)).isSome ∧
          ∀ q ∈ ([(svcA, (1 : Int)), (svcB, 1)] : ConnMap),
            (mapFind s [(svcA, (1 : Int)), (svcB, 1)]).getD 0 ≤ q.2) ∧
      (∃ e, (getNextTargetLeastConnections pathUsers [svcA, svcB] 0
            [(pathUsers, [(svcA, 1), (svcB, 1)])]).1 = some e ∧
        e ∈ ([svcA, svcB] : List Name) ∧
        ∃ ce : Int, mapFind e ([(svcA, (1 : Int)), (svcB, 1)] : ConnMap) = some ce ∧
          (∀ s2 ∈ ([svcA, svcB] : List Name), ∀ c2 : Int,
            mapFind s2 ([(svcA, (1 : Int)), (svcB, 1)] : ConnMap) = some c2 → ce ≤ c2) ∧
          (∀ e2 ∈ ([svcA, svcB] : List Name),
            mapFind e2 ([(svcA, (1 : Int)), (svcB, 1)] : ConnMap) = some ce →
              ∃ r2 : Nat, (getNextTargetLeastConnections pathUsers [svcA, svcB] r2
                [(pathUsers, [(svcA, 1), (svcB, 1)])]).1 = some e2)) :=
  ⟨by decide, by decide,
    least_connections_min_among_tracked pathUsers [svcA, svcB] 0
      [(pathUsers, [(svcA, 1), (svcB, 1)])] [(svcA, 1), (svcB, 1)]
      (by decide) (by decide)⟩

/-- Metadata stored with every cache entry by cache.js. -/
structure CacheMeta where
  cachedAt : Nat
  expiresAt : Nat
deriving DecidableEq

/-- The `cache` and `cacheMetadata` maps of cache.js; `V` is the opaque parsed
JSON payload type. -/
structure CacheState (V : Type) where
  data : List (Name × V)
  meta : List (Name × CacheMeta)

theorem mapFind_erase_self {α β : Type} [DecidableEq α] (k : α) (l : List (α × β)) :
    mapFind k (mapErase k l) = none := by
  unfold mapErase
  rw [mapFind_filter (fun x => decide (x ≠ k)) k l]
  simp

/-- Embedding of the lookup half of `cacheMiddleware` (lines 37-52 of cache.js):
a hit needs a stored value, metadata, and `now < expiresAt`; otherwise, when a
value is present, both maps drop the key (lazy eviction). -/
def cacheLookup {V : Type} (now : Nat) (key : Name) (st : CacheState V) :
    Option V × CacheState V :=
  match mapFind key st.data with
  | none => (none, st)
  | some v =>
    match mapFind key st.meta with
    | some md =>
      if now < md.expiresAt then (some v, st)
      else (none, { data := mapErase key st.data, meta := mapErase key st.meta })
    | none => (none, { data := mapErase key st.data, meta := mapErase key st.meta })

/-- Claim C4: a cache lookup returns a stored value only when the entry is
present with metadata and `now < expiresAt`; an entry whose `expiresAt` has
passed yields a miss and is removed from both maps at that very lookup, so no
entry is ever returned past its `expiresAt`. -/
theorem cache_lookup_requires_fresh_entry {V : Type} (now : Nat) (key : Name)
    (st : CacheState V) :
    (∀ v : V, (cacheLookup now key st).1 = some v →
      mapFind key st.data = some v ∧
        ∃ md, mapFind key st.meta = some md ∧ now < md.expiresAt) ∧
    (∀ (v : V) (md : CacheMeta), mapFind key st.data = some v →
      mapFind key st.meta = some md → md.expiresAt ≤ now →
      (cacheLookup now key st).1 = none ∧
        mapFind key (cacheLookup now key st).2.data = none ∧
        mapFind key (cacheLookup now key st).2.meta = none) := by
  constructor
  · intro v hv
    cases hd : mapFind key st.data with
    | none => simp [cacheLookup, hd] at hv
    | some v0 =>
      cases hm : mapFind key st.meta with
      | none => simp [cacheLookup, hd, hm] at hv
      | some md =>
        by_cases hlt : now < md.expiresAt
        · simp [cacheLookup, hd, hm, hlt] at hv
          subst hv
          exact ⟨rfl, md, rfl, hlt⟩
        · simp [cacheLookup, hd, hm, hlt] at hv
  · intro v md hd hm hexp
    have hnlt : ¬ now < md.expiresAt := not_lt.mpr hexp
    simp only [cacheLookup, hd, hm, if_neg hnlt]
    refine ⟨by simp, mapFind_erase_self key st.data, mapFind_erase_self key st.meta⟩

/-- Witness for C4 at a concrete expired entry (stored payload 5, expiry 50,
lookup at 100). -/
theorem cache_lookup_requires_fresh_entry_check :
    (mapFind pathUsers ([(pathUsers, 5)] : List (Name × Nat)) = some 5) ∧
      (mapFind pathUsers ([(pathUsers, { cachedAt := 0, expiresAt := 50 })] :
          List (Name × CacheMeta)) = some { cachedAt := 0, expiresAt := 50 }) ∧
      (50 ≤ 100) ∧
      ((cacheLookup 100 pathUsers
          { data := [(pathUsers, 5)],
            meta := [(pathUsers, { cachedAt := 0, expiresAt := 50 })] }).1 =
          (none : Option Nat) ∧
        mapFind pathUsers (cacheLookup 100 pathUsers
          { data := [(pathUsers, (5 : Nat))],
            meta := [(pathUsers, { cachedAt := 0, expiresAt := 50 })] }).2.data = none ∧
        mapFind pathUsers (cacheLookup 100 pathUsers
          { data := [(pathUsers, (5 : Nat))],
            meta := [(pathUsers, { cachedAt := 0, expiresAt := 50 })] }).2.meta = none) :=
  ⟨by decide, by decide, by decide,
    (cache_lookup_requires_fresh_entry 100 pathUsers
        { data := [(pathUsers, (5 : Nat))],
          meta := [(pathUsers, { cachedAt := 0, expiresAt := 50 })] }).2
      5 { cachedAt := 0, expiresAt := 50 } (by decide) (by decide) (by decide)⟩

/-- The `CACHE_DURATIONS` table of cache.js in object-key insertion order. -/
def cacheDurations : List (Name × Nat) :=
  [("/products".toList, 300000), ("/stats".toList, 600000), ("/users".toList, 120000)]

/-- The `5 * 60 * 1000` fallback duration of cache.js. -/
def defaultTTL : Nat := 300000

/-- Embedding of the duration lookup in the store half of `cacheMiddleware`:
first `CACHE_DURATIONS` key that is a prefix of the request URL, with the
falsy-value fallback of `|| 5 * 60 * 1000`. -/
def ttlFor (url : Name) : Nat :=
  match cacheDurations.find? (fun p => decide (p.1 <+: url)) with
  | some p => if p.2 = 0 then defaultTTL else p.2
  | none => defaultTTL

/-- Embedding of the store half of `cacheMiddleware` (the wrapped `res.send`):
`parsed = none` stands for a non-JSON or unparseable payload, which stores
nothing; otherwise both maps are written, with `expiresAt = now + ttl`. -/
def cacheStoreSend {V : Type} (now : Nat) (url : Name) (parsed : Option V)
    (st : CacheState V) : CacheState V :=
  match parsed with
  | none => st
  | some v =>
    { data := mapInsert url v st.data,
      meta := mapInsert url { cachedAt := now, expiresAt := now + ttlFor url } st.meta }

theorem cacheDurations_at_most_one (url : Name) (p q : Name × Nat)
    (hp : p ∈ cacheDurations) (hq : q ∈ cacheDurations) (hpu : p.1 <+: url)
    (hqu : q.1 <+: url) : p = q := by
  have hcomp := List.prefix_or_prefix_of_prefix hpu hqu
  fin_cases hp <;> fin_cases hq <;>
    first
      | rfl
      | (exfalso; rcases hcomp with h | h <;> revert h <;> decide)

theorem ttlFor_longest (url : Name) :
    (∃ p ∈ cacheDurations, p.1 <+: url ∧ ttlFor url = p.2 ∧
      ∀ q ∈ cacheDurations, q.1 <+: url → q.1.length ≤ p.1.length) ∨
    ((∀ q ∈ cacheDurations, ¬ (q.1 <+: url)) ∧ ttlFor url = defaultTTL) := by
  cases hf : cacheDurations.find? (fun p => decide (p.1 <+: url)) with
  | none =>
    right
    refine ⟨?_, by simp [ttlFor, hf]⟩
    intro q hq hqu
    have := List.find?_eq_none.mp hf q hq
    simp [hqu] at this
  | some p =>
    left
    have hpm := List.mem_of_find?_eq_some hf
    have hpt := List.find?_some hf
    have hpu : p.1 <+: url := of_decide_eq_true hpt
    have hz : ¬ (p.2 = 0) := by
      fin_cases hpm <;> decide
    refine ⟨p, hpm, hpu, by simp [ttlFor, hf, hz], ?_⟩
    intro q hq hqu
    rw [cacheDurations_at_most_one url p q hpm hq hpu hqu]

/-- Claim C8: a stored cache-eligible response gets metadata with `cachedAt = now`
and `expiresAt = now + ttl(url)`, where the looked-up ttl is exactly the duration
of the longest configured prefix matching the URL (at most one configured prefix
can match, so the first match the code takes is the longest one), falling back to
the default duration when no configured prefix matches. -/
theorem cache_store_ttl_longest_config {V : Type} (now : Nat) (url : Name) (v : V)
    (st : CacheState V) :
    mapFind url (cacheStoreSend now url (some v) st).meta =
        some { cachedAt := now, expiresAt := now + ttlFor url } ∧
      mapFind url (cacheStoreSend now url (some v) st).data = some v ∧
      ((∃ p ∈ cacheDurations, p.1 <+: url ∧ ttlFor url = p.2 ∧
          ∀ q ∈ cacheDurations, q.1 <+: url → q.1.length ≤ p.1.length) ∨
        ((∀ q ∈ cacheDurations, ¬ (q.1 <+: url)) ∧ ttlFor url = defaultTTL)) := by
  refine ⟨?_, ?_, ttlFor_longest url⟩
  · simp [cacheStoreSend, mapFind_insert_self]
  · simp [cacheStoreSend, mapFind_insert_self]

def urlProductsQ : Name := "/products?id=1".toList

/-- Witness for C8 at the URL /products?id=1, stored at time 10 with payload 5. -/
theorem cache_store_ttl_longest_config_check :
    mapFind urlProductsQ (cacheStoreSend 10 urlProductsQ (some (5 : Nat))
        { data := [], meta := [] }).meta =
        some { cachedAt := 10, expiresAt := 10 + ttlFor urlProductsQ } ∧
      mapFind urlProductsQ (cacheStoreSend 10 urlProductsQ (some (5 : Nat))
        { data := [], meta := [] }).data = some 5 ∧
      ((∃ p ∈ cacheDurations, p.1 <+: urlProductsQ ∧ ttlFor urlProductsQ = p.2 ∧
          ∀ q ∈ cacheDurations, q.1 <+: urlProductsQ → q.1.length ≤ p.1.length) ∨
        ((∀ q ∈ cacheDurations, ¬ (q.1 <+: urlProductsQ)) ∧
          ttlFor urlProductsQ = defaultTTL)) :=
  cache_store_ttl_longest_config 10 urlProductsQ 5 { data := [], meta := [] }

/-- Embedding of the JavaScript `string.split(sep)` for a one-character
separator: the empty string splits to one empty group. -/
def jsSplit (sep : Char) : List Char → List (List Char)
  | [] => [[]]
  | c :: cs =>
    if c = sep then [] :: jsSplit sep cs
    else
      match jsSplit sep cs with
      | [] => [[c]]
      | g :: gs => (c :: g) :: gs

/-- Embedding of the JavaScript `array.join(sep)`. -/
def joinSep (sep : List Char) : List (List Char) → List Char
  | [] => []
  | [g] => g
  | g :: gs => g ++ sep ++ joinSep sep gs

/-- Embedding of `req.path.split('/').slice(0, 2).join('/')` from
`cacheInvalidationMiddleware`. -/
def baseRoute (path : Name) : Name := joinSep ['/'] ((jsSplit '/' path).take 2)

/-- The write methods listed in `cacheInvalidationMiddleware`. -/
def writeMethods : List Name :=
  ["POST".toList, "PUT".toList, "DELETE".toList, "PATCH".toList]

/-- Embedding of `invalidateCache(pattern)`: a missing or falsy (empty) pattern
clears everything; otherwise every cache key containing the pattern as a
substring is dropped from both maps (the metadata key only together with its
cache entry, as the source iterates `cache.entries()`). -/
def invalidateCache {V : Type} (pat : Option Name) (st : CacheState V) : CacheState V :=
  match pat with
  | none => { data := [], meta := [] }
  | some [] => { data := [], meta := [] }
  | some p =>
    { data := st.data.filter (fun q => !(decide (p <:+: q.1))),
      meta := st.meta.filter (fun q => !(decide (p <:+: q.1) && (mapFind q.1 st.data).isSome)) }

/-- Embedding of `cacheInvalidationMiddleware(req)`: write methods invalidate
with the first path segment as pattern, other methods pass through. -/
def cacheInvalidationMiddleware {V : Type} (method : Name) (path : Name)
    (st : CacheState V) : CacheState V :=
  if method ∈ writeMethods then invalidateCache (some (baseRoute path)) st else st

theorem jsSplit_head (sep : Char) (l : List Char) :
    ∃ gs, jsSplit sep l = (l.takeWhile (fun c => c != sep)) :: gs := by
  induction l with
  | nil => exact ⟨[], rfl⟩
  | cons c cs ih =>
    by_cases h : c = sep
    · subst h
      refine ⟨jsSplit c cs, ?_⟩
      simp [jsSplit, List.takeWhile_cons]
    · obtain ⟨gs, hgs⟩ := ih
      refine ⟨gs, ?_⟩
      rw [jsSplit, if_neg h, hgs, List.takeWhile_cons]
      simp [h]

theorem baseRoute_slash (p : Name) :
    baseRoute ('/' :: p) = '/' :: p.takeWhile (fun c => c != '/') := by
  obtain ⟨gs, hgs⟩ := jsSplit_head '/' p
  rw [baseRoute, jsSplit, if_pos rfl, hgs]
  rfl

theorem invalidate_some_find {V : Type} (pat k : Name) (st : CacheState V) :
    mapFind k (invalidateCache (some pat) st).data =
      if pat <:+: k then none else mapFind k st.data := by
  cases pat with
  | nil => simp [invalidateCache, mapFind, List.nil_infix]
  | cons a t =>
    show mapFind k (st.data.filter (fun q => !(decide ((a :: t) <:+: q.1)))) = _
    rw [mapFind_filter (fun x => !(decide ((a :: t) <:+: x))) k st.data]
    by_cases h : (a :: t) <:+: k
    · simp [h]
    · simp [h]

/-- Claim C9: on a write-method request whose path starts with a slash, the
computed pattern is exactly the first-segment prefix of the path, and every
cache entry whose key starts with that prefix is gone afterwards (so a GET on
such a key misses); the administrative clear with no pattern empties the cache,
and with a pattern removes exactly the entries whose key contains the pattern
as a substring. -/
theorem write_invalidation_clears_route_matches {V : Type} (method : Name) (p : Name)
    (st : CacheState V) (now : Nat) (hw : method ∈ writeMethods) :
    baseRoute ('/' :: p) = '/' :: p.takeWhile (fun c => c != '/') ∧
    (∀ k : Name, baseRoute ('/' :: p) <+: k →
      mapFind k (cacheInvalidationMiddleware method ('/' :: p) st).data = none ∧
      (cacheLookup now k (cacheInvalidationMiddleware method ('/' :: p) st)).1 = none) ∧
    ((invalidateCache none st : CacheState V).data = [] ∧
      (invalidateCache none st : CacheState V).meta = []) ∧
    (∀ pat k : Name, mapFind k (invalidateCache (some pat) st).data =
      if pat <:+: k then none else mapFind k st.data) := by
  refine ⟨baseRoute_slash p, ?_, ⟨rfl, rfl⟩, fun pat k => invalidate_some_find pat k st⟩
  intro k hk
  have hfind : mapFind k (cacheInvalidationMiddleware method ('/' :: p) st).data = none := by
    simp only [cacheInvalidationMiddleware, if_pos hw]
    rw [invalidate_some_find, if_pos hk.isInfix]
  exact ⟨hfind, by simp [cacheLookup, hfind]⟩

def methodPost : Name := "POST".toList
def pathProductsFive : Name := "products/5".toList

/-- Witness for C9: a POST to /products/5 against an arbitrary concrete cache. -/
theorem write_invalidation_clears_route_matches_check :
    methodPost ∈ writeMethods ∧
      (baseRoute ('/' :: pathProductsFive) =
          '/' :: pathProductsFive.takeWhile (fun c => c != '/') ∧
        (∀ k : Name, baseRoute ('/' :: pathProductsFive) <+: k →
          mapFind k (cacheInvalidationMiddleware methodPost ('/' :: pathProductsFive)
            ({ data := [(urlProductsQ, (5 : Nat))], meta := [] } : CacheState Nat)).data =
              none ∧
          (cacheLookup 3 k (cacheInvalidationMiddleware methodPost ('/' :: pathProductsFive)
            ({ data := [(urlProductsQ, (5 : Nat))], meta := [] } : CacheState Nat))).1 =
              none) ∧
        ((invalidateCache none
            ({ data := [(urlProductsQ, (5 : Nat))], meta := [] } : CacheState Nat)).data =
              [] ∧
          (invalidateCache none
            ({ data := [(urlProductsQ, (5 : Nat))], meta := [] } : CacheState Nat)).meta =
              []) ∧
        (∀ pat k : Name, mapFind k (invalidateCache (some pat)
            ({ data := [(urlProductsQ, (5 : Nat))], meta := [] } : CacheState Nat)).data =
          if pat <:+: k then none
          else mapFind k
            ({ data := [(urlProductsQ, (5 : Nat))], meta := [] } : CacheState Nat).data)) :=
  ⟨by decide,
    write_invalidation_clears_route_matches methodPost pathProductsFive
      { data := [(urlProductsQ, (5 : Nat))], meta := [] } 3 (by decide)⟩

/-- Modelled from the spec: the rate limiter source (src/rateLimiter.js) is
imported by src/index.js but is not among the sources at hand, so this follows
§4.4 of the design document word for word — each subject owns a list of request
timestamps; an evaluation at time `now` first prunes timestamps older than
`now - windowSize`, then admits the request and appends its timestamp only if
the pruned count stays below `limit`, and otherwise rejects without appending. -/
def slideStep (limit windowSize now : Nat) (window : List Nat) : Bool × List Nat :=
  let pruned := window.filter (fun t => decide (now ≤ t + windowSize))
  if pruned.length < limit then (true, pruned ++ [now]) else (false, pruned)

/-- Modelled from the spec: a subject's consecutive evaluations at the given
request times, starting from the given window. -/
def rateRun (limit windowSize : Nat) : List Nat → List Nat → List Bool × List Nat
  | [], w => ([], w)
  | t :: ts, w =>
    let s := slideStep limit windowSize t w
    let r := rateRun limit windowSize ts s.2
    (s.1 :: r.1, r.2)

theorem rateRun_all_admitted (limit windowSize : Nat) :
    ∀ (ts w : List Nat),
      List.Pairwise (fun a b => b ≤ a + windowSize) (w ++ ts) →
      w.length + ts.length ≤ limit →
      (rateRun limit windowSize ts w).1 = List.replicate ts.length true ∧
        (rateRun limit windowSize ts w).2 = w ++ ts := by
  intro ts
  induction ts with
  | nil =>
    intro w _ _
    exact ⟨rfl, by simp [rateRun]⟩
  | cons t ts ih =>
    intro w hpair hlen
    have hw : ∀ s ∈ w, t ≤ s + windowSize := by
      intro s hs
      have h := (List.pairwise_append.mp hpair).2.2
      exact h s hs t (List.mem_cons_self _ _)
    have hfil : w.filter (fun s => decide (t ≤ s + windowSize)) = w := by
      apply List.filter_eq_self.mpr
      intro s hs
      exact decide_eq_true (hw s hs)
    have hstep : slideStep limit windowSize t w = (true, w ++ [t]) := by
      rw [slideStep]
      simp only [hfil]
      rw [if_pos (by simp at hlen; omega)]
    have hpair' : List.Pairwise (fun a b => b ≤ a + windowSize) ((w ++ [t]) ++ ts) := by
      rw [List.append_assoc]
      simpa using hpair
    have hlen' : (w ++ [t]).length + ts.length ≤ limit := by
      simp at hlen ⊢
      omega
    have hrest := ih (w ++ [t]) hpair' hlen'
    constructor
    · show (slideStep limit windowSize t w).1 ::
        (rateRun limit windowSize ts (slideStep limit windowSize t w).2).1 = _
      rw [hstep]
      simp only [List.length_cons, List.replicate_succ]
      exact congrArg _ hrest.1
    · show (rateRun limit windowSize ts (slideStep limit windowSize t w).2).2 = _
      rw [hstep]
      rw [hrest.2, List.append_assoc]
      rfl

/-- Claim C7 (the rate limiter is modelled from §4.4 of the spec, its source
file being absent): with limit L and window W, L requests inside one window are
all admitted; request L+1 inside the same window is rejected and leaves the
subject's window unchanged (nothing appended); and once the window has fully
elapsed past every recorded timestamp, the subject is admitted again. -/
theorem sliding_window_admits_limit_then_rejects (limit windowSize : Nat)
    (hl : 0 < limit) (ts : List Nat) (hlen : ts.length = limit) (tn tr : Nat)
    (hpair : List.Pairwise (fun a b => b ≤ a + windowSize) (ts ++ [tn]))
    (hrec : ∀ t ∈ ts, t + windowSize < tr) :
    (rateRun limit windowSize ts []).1 = List.replicate limit true ∧
    (rateRun limit windowSize ts []).2 = ts ∧
    (slideStep limit windowSize tn (rateRun limit windowSize ts []).2).1 = false ∧
    (slideStep limit windowSize tn (rateRun limit windowSize ts []).2).2 = ts ∧
    (slideStep limit windowSize tr
      (slideStep limit windowSize tn (rateRun limit windowSize ts []).2).2).1 = true := by
  have hpairts : List.Pairwise (fun a b => b ≤ a + windowSize) ts :=
    (List.pairwise_append.mp hpair).1
  have hrun := rateRun_all_admitted limit windowSize ts []
    (by simpa using hpairts) (by simp [hlen])
  have hrun2 : (rateRun limit windowSize ts []).2 = ts := by
    rw [hrun.2]
    rfl
  have htn : ∀ s ∈ ts, tn ≤ s + windowSize := by
    intro s hs
    exact (List.pairwise_append.mp hpair).2.2 s hs tn (List.mem_cons_self _ _)
  have hfiltn : ts.filter (fun s => decide (tn ≤ s + windowSize)) = ts := by
    apply List.filter_eq_self.mpr
    intro s hs
    exact decide_eq_true (htn s hs)
  have hreject : slideStep limit windowSize tn ts = (false, ts) := by
    unfold slideStep
    simp only [hfiltn]
    rw [if_neg (by rw [hlen]; omega)]
  have hfiltr : ts.filter (fun s => decide (tr ≤ s + windowSize)) = [] := by
    apply List.filter_eq_nil_iff.mpr
    intro s hs
    simp only [decide_eq_true_eq]
    exact not_le.mpr (hrec s hs)
  have hrecover : (slideStep limit windowSize tr ts).1 = true := by
    unfold slideStep
    simp only [hfiltr]
    rw [if_pos (by simpa using hl)]
  refine ⟨?_, hrun2, ?_, ?_, ?_⟩
  · rw [hlen] at hrun
    exact hrun.1
  · rw [hrun2, hreject]
  · rw [hrun2, hreject]
  · rw [hrun2, hreject]
    exact hrecover

/-- Witness for C7: limit 2, window 10, admitted requests at times 0 and 1,
rejected request at time 2, recovery request at time 100. -/
theorem sliding_window_admits_limit_then_rejects_check :
    (0 < 2) ∧ (List.length [0, 1] = 2) ∧
      List.Pairwise (fun a b => b ≤ a + 10) ([0, 1] ++ [2]) ∧
      (∀ t ∈ ([0, 1] : List Nat), t + 10 < 100) ∧
      ((rateRun 2 10 [0, 1] []).1 = List.replicate 2 true ∧
        (rateRun 2 10 [0, 1] []).2 = [0, 1] ∧
        (slideStep 2 10 2 (rateRun 2 10 [0, 1] []).2).1 = false ∧
        (slideStep 2 10 2 (rateRun 2 10 [0, 1] []).2).2 = [0, 1] ∧
        (slideStep 2 10 100 (slideStep 2 10 2 (rateRun 2 10 [0, 1] []).2).2).1 = true) :=
  ⟨by decide, by decide, by decide, by decide,
    sliding_window_admits_limit_then_rejects 2 10 (by decide) [0, 1] (by decide) 2 100
      (by decide) (by decide)⟩
